import Mathlib

/-!
Verification of the battleships game core (src/run.py).

The Python code is shallowly embedded: the mutable `Board` object becomes a
structure that operations transform functionally, Python lists become Lean
lists, and Python `int` coordinates become `Int` (so that negative indices
and out-of-range indices behave as in CPython: negative indices wrap from
the end, out-of-range indexing raises `IndexError`, modelled by an
`IndexError` outcome that carries the state mutated so far).
-/

/-- Result of `Board.process_guess`.  The Python function returns the strings
"Hit", "Miss" or "Repeat"; `IndexError` models the CPython exception raised
by `self.board[x][y] = ...` when an index is out of range. -/
inductive GuessOutcome where
  | Hit
  | Miss
  | Repeat
  | IndexError
deriving DecidableEq, Repr

/-- Result of `Board.add_ship`.  The Python method raises
`ValueError("Cannot add more ships!")` (capacity) or
`ValueError("Ship already placed at this location!")` (duplicate);
`IndexError` models the exception from `self.board[x][y] = "@"` on a
player board with an out-of-range coordinate. -/
inductive AddOutcome where
  | Ok
  | CapacityExceeded
  | DuplicateShip
  | IndexError
deriving DecidableEq, Repr

/-- The `Board` class of src/run.py: grid size, display grid (characters
`.`, `@`, `X`, `O`), ship capacity (`num_ships`), owner name, board type
("player" or "computer"), guess history and ship list. -/
structure Board where
  board_size : Nat
  board : List (List Char)
  num_ships : Nat
  name : String
  type : String
  guesses : List (Int × Int)
  ships : List (Int × Int)
deriving DecidableEq, Repr

/-- `Board.__init__`: a `board_size × board_size` grid of `'.'`, no guesses,
no ships. -/
def Board.init (board_size num_ships : Nat) (name ty : String) : Board :=
  { board_size := board_size
    board := List.replicate board_size (List.replicate board_size '.')
    num_ships := num_ships
    name := name
    type := ty
    guesses := []
    ships := [] }

/-- CPython list-index resolution for `l[i]` on a list of length `len`:
a nonnegative index must be `< len`; a negative index wraps to `i + len`,
which must be nonnegative; otherwise `IndexError` (here `none`). -/
def pyIdx (len : Nat) (i : Int) : Option Nat :=
  if 0 ≤ i then
    if i < (len : Int) then some i.toNat else none
  else
    if 0 ≤ i + (len : Int) then some (i + (len : Int)).toNat else none

/-- The nonnegative index CPython actually uses for an in-range index `i`
of a list of length `len`: `i` itself if nonnegative, else the
end-relative `i + len`. -/
def pyWrap (len : Nat) (i : Int) : Nat :=
  if 0 ≤ i then i.toNat else (i + (len : Int)).toNat

/-- The grid assignment `grid[x][y] = c` with CPython index semantics:
`grid[x]` is resolved first (possible `IndexError`), then the row cell is
assigned (possible `IndexError`). -/
def setCellPy (grid : List (List Char)) (x y : Int) (c : Char) :
    Option (List (List Char)) :=
  match pyIdx grid.length x with
  | none => none
  | some nx =>
    let row := grid.getD nx []
    match pyIdx row.length y with
    | none => none
    | some ny => some (grid.set nx (row.set ny c))

/-- Read a grid cell at already-resolved (nonnegative) indices. -/
def getCell (grid : List (List Char)) (i j : Nat) : Char :=
  (grid.getD i []).getD j ' '

/-- `Board.process_guess`: a repeated coordinate is rejected with no state
change; otherwise the coordinate is first appended to `guesses`, then
the cell is marked `'X'` (hit) or `'O'` (miss).  If the cell assignment
raises, the returned state keeps the already-appended guess. -/
def Board.process_guess (b : Board) (x y : Int) : GuessOutcome × Board :=
  if (x, y) ∈ b.guesses then
    (GuessOutcome.Repeat, b)
  else if (x, y) ∈ b.ships then
    match setCellPy b.board x y 'X' with
    | some g =>
      (GuessOutcome.Hit, { b with guesses := b.guesses ++ [(x, y)], board := g })
    | none =>
      (GuessOutcome.IndexError, { b with guesses := b.guesses ++ [(x, y)] })
  else
    match setCellPy b.board x y 'O' with
    | some g =>
      (GuessOutcome.Miss, { b with guesses := b.guesses ++ [(x, y)], board := g })
    | none =>
      (GuessOutcome.IndexError, { b with guesses := b.guesses ++ [(x, y)] })

/-- `Board.add_ship`: capacity is checked first, then duplication; on
success the ship is appended, and on a player board the cell is marked
`'@'` (which can raise for an out-of-range coordinate, after the ship
has already been appended). -/
def Board.add_ship (b : Board) (x y : Int) : AddOutcome × Board :=
  if b.num_ships ≤ b.ships.length then
    (AddOutcome.CapacityExceeded, b)
  else if (x, y) ∈ b.ships then
    (AddOutcome.DuplicateShip, b)
  else if b.type = "player" then
    match setCellPy b.board x y '@' with
    | some g =>
      (AddOutcome.Ok, { b with ships := b.ships ++ [(x, y)], board := g })
    | none =>
      (AddOutcome.IndexError, { b with ships := b.ships ++ [(x, y)] })
  else
    (AddOutcome.Ok, { b with ships := b.ships ++ [(x, y)] })

/-- `Board.display`: the grid actually shown; with `hide_ships` every `'@'`
cell is printed as `'.'`, all other cells as-is. -/
def Board.displayGrid (b : Board) (hide_ships : Bool) : List (List Char) :=
  b.board.map fun row =>
    row.map fun cell => if hide_ships && cell = '@' then '.' else cell

/-- `valid_coordinates`: in-bounds and not already a ship location. -/
def valid_coordinates (x y : Int) (b : Board) : Bool :=
  decide (0 ≤ x) && decide (x < (b.board_size : Int)) &&
  decide (0 ≤ y) && decide (y < (b.board_size : Int)) &&
  !(decide ((x, y) ∈ b.ships))

/-- The bounds check of `get_player_guess` (line 113):
`0 <= x < board_size and 0 <= y < board_size`. -/
def in_bounds (b : Board) (x y : Int) : Prop :=
  0 ≤ x ∧ x < (b.board_size : Int) ∧ 0 ≤ y ∧ y < (b.board_size : Int)

instance (b : Board) (x y : Int) : Decidable (in_bounds b x y) := by
  unfold in_bounds; infer_instance

/-- `get_computer_guess`: the rejection loop over `random_point` draws,
with the randomness made explicit as a stream of drawn pairs (each draw
of `random_point(n)` lies in `0 .. n-1`, `randint` being inclusive);
the first pair not already in the target board's `guesses` is returned,
`none` if the stream runs out. -/
def get_computer_guess (b : Board) : List (Int × Int) → Option (Int × Int)
  | [] => none
  | d :: rest =>
    if d ∈ b.guesses then get_computer_guess b rest else some d

/-- One resolved guess in `play_game` (lines 150-161 and 164-170): the
guess is applied to the target board via `process_guess`; on `Hit` the
caller removes the coordinate from the target's live ship list
(`ships.remove`, first occurrence) and increments the guesser's score. -/
def resolve_guess (target : Board) (x y : Int) (score : Nat) :
    GuessOutcome × Board × Nat :=
  let r := target.process_guess x y
  if r.1 = GuessOutcome.Hit then
    (r.1, { r.2 with ships := r.2.ships.erase (x, y) }, score + 1)
  else
    (r.1, r.2, score)

/-- The mutable game state of `play_game`: the two boards and the module
level `scores` dictionary. -/
structure GameState where
  computer_board : Board
  player_board : Board
  scores_player : Nat
  scores_computer : Nat
deriving Repr

/-- One round of `play_game` given the player's accepted guess (the inner
re-prompt loop supplies a non-`Repeat` guess) and the computer's guess:
the player's guess is resolved against the computer's board, then —
with no intermediate termination check — the computer's guess is
resolved against the player's board. -/
def play_round (gs : GameState) (px py cx cy : Int) :
    GameState × GuessOutcome × GuessOutcome :=
  let p := resolve_guess gs.computer_board px py gs.scores_player
  let c := resolve_guess gs.player_board cx cy gs.scores_computer
  ({ computer_board := p.2.1
     player_board := c.2.1
     scores_player := p.2.2
     scores_computer := c.2.2 }, p.1, c.1)

/-- The end-of-round decision of `play_game` (lines 187-193): the
computer's board is checked first, then the player's; only if both
still have ships does the game continue to the continue-or-quit
prompt. -/
inductive RoundEnd where
  | PlayerWins
  | ComputerWins
  | Continue
deriving DecidableEq, Repr

/-- End-of-round termination check, in the source's order. -/
def end_check (computer_board player_board : Board) : RoundEnd :=
  if computer_board.ships = [] then RoundEnd.PlayerWins
  else if player_board.ships = [] then RoundEnd.ComputerWins
  else RoundEnd.Continue

/-- The score reset in `new_game` (lines 248-249): both counters to 0.
The pair is (player score, computer score). -/
def reset_scores (_s : Nat × Nat) : Nat × Nat := (0, 0)

/-- Well-formedness of the grid: `board` is a `board_size × board_size`
matrix, as established by `Board.__init__`. -/
def Board.wf (b : Board) : Prop :=
  b.board.length = b.board_size ∧ ∀ row ∈ b.board, row.length = b.board_size

instance (b : Board) : Decidable b.wf := by
  unfold Board.wf; infer_instance

/-- The ship-list invariant of the spec: all coordinates in bounds,
pairwise distinct, at most `num_ships` many. -/
def ships_invariant (b : Board) : Prop :=
  (∀ p ∈ b.ships, in_bounds b p.1 p.2) ∧
  b.ships.Nodup ∧ b.ships.length ≤ b.num_ships

instance (b : Board) : Decidable (ships_invariant b) := by
  unfold ships_invariant; infer_instance

/-! ## Helper lemmas about the CPython indexing model -/

theorem pyIdx_of_inrange (len : Nat) (i : Int)
    (h0 : -(len : Int) ≤ i) (h1 : i < (len : Int)) :
    pyIdx len i = some (pyWrap len i) := by
  unfold pyIdx pyWrap
  by_cases h : 0 ≤ i
  · rw [if_pos h, if_pos h1, if_pos h]
  · rw [if_neg h, if_pos (by omega), if_neg h]

theorem pyIdx_none_of_ge (len : Nat) (i : Int) (h : (len : Int) ≤ i) :
    pyIdx len i = none := by
  unfold pyIdx
  rw [if_pos (by omega), if_neg (by omega)]

theorem pyWrap_lt (len : Nat) (i : Int)
    (h0 : -(len : Int) ≤ i) (h1 : i < (len : Int)) : pyWrap len i < len := by
  unfold pyWrap
  by_cases h : 0 ≤ i
  · rw [if_pos h]; omega
  · rw [if_neg h]; omega

theorem pyWrap_of_nonneg (len : Nat) (i : Int) (h : 0 ≤ i) :
    pyWrap len i = i.toNat := if_pos h

theorem setCellPy_eq_some (g : List (List Char)) (size : Nat) (x y : Int)
    (c : Char) (hlen : g.length = size) (hrows : ∀ row ∈ g, row.length = size)
    (hx0 : -(size : Int) ≤ x) (hx1 : x < (size : Int))
    (hy0 : -(size : Int) ≤ y) (hy1 : y < (size : Int)) :
    setCellPy g x y c =
      some (g.set (pyWrap size x)
        ((g.getD (pyWrap size x) []).set (pyWrap size y) c)) := by
  have hxw : pyWrap size x < size := pyWrap_lt size x hx0 hx1
  have hrow : (g.getD (pyWrap size x) []).length = size := by
    have hmem : g.getD (pyWrap size x) [] ∈ g := by
      rw [List.getD_eq_getElem g [] (by omega)]
      exact List.getElem_mem _
    exact hrows _ hmem
  unfold setCellPy
  rw [hlen, pyIdx_of_inrange size x hx0 hx1]
  simp only
  rw [hrow, pyIdx_of_inrange size y hy0 hy1]

theorem getCell_set_self (g : List (List Char)) (nx ny : Nat) (c : Char)
    (hx : nx < g.length) (hy : ny < (g.getD nx []).length) :
    getCell (g.set nx ((g.getD nx []).set ny c)) nx ny = c := by
  unfold getCell
  rw [List.getD_eq_getElem _ [] (by simpa using hx)]
  rw [List.getElem_set_self (by simpa using hx)]
  rw [List.getD_eq_getElem _ ' ' (by simpa using hy)]
  exact List.getElem_set_self (by simpa using hy)

theorem process_guess_of_mem (b : Board) (x y : Int)
    (h : (x, y) ∈ b.guesses) :
    b.process_guess x y = (GuessOutcome.Repeat, b) := by
  unfold Board.process_guess
  rw [if_pos h]

/-- C1: for every board and every in-bounds coordinate not already in the
guess history, `process_guess` returns `Hit` and marks the cell `'X'` when
the coordinate is a ship, otherwise returns `Miss` and marks the cell `'O'`,
and in both cases appends the coordinate to the guess history. -/
theorem process_guess_fresh (b : Board) (x y : Int)
    (hwf : b.wf) (hin : in_bounds b x y) (hg : (x, y) ∉ b.guesses) :
    ((x, y) ∈ b.ships →
        (b.process_guess x y).1 = GuessOutcome.Hit ∧
        getCell (b.process_guess x y).2.board x.toNat y.toNat = 'X') ∧
    ((x, y) ∉ b.ships →
        (b.process_guess x y).1 = GuessOutcome.Miss ∧
        getCell (b.process_guess x y).2.board x.toNat y.toNat = 'O') ∧
    (b.process_guess x y).2.guesses = b.guesses ++ [(x, y)] := by
  obtain ⟨hlen, hrows⟩ := hwf
  obtain ⟨hx0, hx1, hy0, hy1⟩ := hin
  have hset : ∀ c : Char, setCellPy b.board x y c =
      some (b.board.set (pyWrap b.board_size x)
        ((b.board.getD (pyWrap b.board_size x) []).set
          (pyWrap b.board_size y) c)) := fun c =>
    setCellPy_eq_some b.board b.board_size x y c hlen hrows
      (by omega) hx1 (by omega) hy1
  have hxw : pyWrap b.board_size x = x.toNat := pyWrap_of_nonneg _ x hx0
  have hyw : pyWrap b.board_size y = y.toNat := pyWrap_of_nonneg _ y hy0
  rw [hxw, hyw] at hset
  have hxl : x.toNat < b.board.length := by rw [hlen]; omega
  have hyl : y.toNat < (b.board.getD x.toNat []).length := by
    have hmem : b.board.getD x.toNat [] ∈ b.board := by
      rw [List.getD_eq_getElem b.board [] hxl]
      exact List.getElem_mem hxl
    rw [hrows _ hmem]; omega
  refine ⟨fun hs => ?_, fun hs => ?_, ?_⟩
  · unfold Board.process_guess
    rw [if_neg hg, if_pos hs, hset 'X']
    exact ⟨rfl, getCell_set_self _ _ _ _ hxl hyl⟩
  · unfold Board.process_guess
    rw [if_neg hg, if_neg hs, hset 'O']
    exact ⟨rfl, getCell_set_self _ _ _ _ hxl hyl⟩
  · unfold Board.process_guess
    rw [if_neg hg]
    by_cases hs : (x, y) ∈ b.ships
    · rw [if_pos hs, hset 'X']
    · rw [if_neg hs, hset 'O']

theorem process_guess_ships_eq (b : Board) (x y : Int) :
    (b.process_guess x y).2.ships = b.ships := by
  unfold Board.process_guess
  split
  · rfl
  · split
    · split <;> rfl
    · split <;> rfl

theorem process_guess_board_size_eq (b : Board) (x y : Int) :
    (b.process_guess x y).2.board_size = b.board_size := by
  unfold Board.process_guess
  split
  · rfl
  · split
    · split <;> rfl
    · split <;> rfl

theorem process_guess_hit_mem (b : Board) (x y : Int)
    (h : (b.process_guess x y).1 = GuessOutcome.Hit) : (x, y) ∈ b.ships := by
  by_contra hs
  unfold Board.process_guess at h
  by_cases h1 : (x, y) ∈ b.guesses
  · rw [if_pos h1] at h
    exact GuessOutcome.noConfusion h
  · rw [if_neg h1, if_neg hs] at h
    cases hm : setCellPy b.board x y 'O' <;> rw [hm] at h <;>
      exact GuessOutcome.noConfusion h

theorem process_guess_not_repeat (b : Board) (x y : Int)
    (h : (x, y) ∉ b.guesses) :
    (b.process_guess x y).1 ≠ GuessOutcome.Repeat := by
  unfold Board.process_guess
  rw [if_neg h]
  split
  · split <;> exact fun hc => GuessOutcome.noConfusion hc
  · split <;> exact fun hc => GuessOutcome.noConfusion hc

theorem pyIdx_lt (len : Nat) (i : Int) (n : Nat) (h : pyIdx len i = some n) :
    n < len := by
  unfold pyIdx at h
  by_cases h0 : 0 ≤ i
  · rw [if_pos h0] at h
    by_cases h1 : i < (len : Int)
    · rw [if_pos h1] at h
      cases h
      omega
    · rw [if_neg h1] at h
      exact Option.noConfusion h
  · rw [if_neg h0] at h
    by_cases h1 : 0 ≤ i + (len : Int)
    · rw [if_pos h1] at h
      cases h
      omega
    · rw [if_neg h1] at h
      exact Option.noConfusion h

theorem setCellPy_none (g : List (List Char)) (size : Nat) (x y : Int)
    (c : Char) (hlen : g.length = size) (hrows : ∀ row ∈ g, row.length = size)
    (h : (size : Int) ≤ x ∨ (size : Int) ≤ y) :
    setCellPy g x y c = none := by
  unfold setCellPy
  rcases h with hx | hy
  · rw [hlen, pyIdx_none_of_ge size x hx]
  · cases hpx : pyIdx g.length x with
    | none => rfl
    | some nx =>
      have hnx : nx < g.length := pyIdx_lt g.length x nx hpx
      have hrow : (g.getD nx []).length = size := by
        have hmem : g.getD nx [] ∈ g := by
          rw [List.getD_eq_getElem g [] hnx]
          exact List.getElem_mem hnx
        exact hrows _ hmem
      simp only
      rw [hrow, pyIdx_none_of_ge size y hy]

/-- C2: a coordinate already in the guess history yields `Repeat` with no
state change at all; consequently a second guess at a fresh in-bounds
coordinate yields `Hit` or `Miss` first, then `Repeat`, and the guess
history grows by exactly one entry. -/
theorem process_guess_repeat_spec (b : Board) (x y : Int) :
    ((x, y) ∈ b.guesses → b.process_guess x y = (GuessOutcome.Repeat, b)) ∧
    (b.wf → in_bounds b x y → (x, y) ∉ b.guesses →
      ((b.process_guess x y).1 = GuessOutcome.Hit ∨
        (b.process_guess x y).1 = GuessOutcome.Miss) ∧
      (b.process_guess x y).2.process_guess x y =
        (GuessOutcome.Repeat, (b.process_guess x y).2) ∧
      (b.process_guess x y).2.guesses.length = b.guesses.length + 1) := by
  refine ⟨fun h => process_guess_of_mem b x y h, fun hwf hin hg => ?_⟩
  obtain ⟨h1, h2, h3⟩ := process_guess_fresh b x y hwf hin hg
  have hguesses : (b.process_guess x y).2.guesses = b.guesses ++ [(x, y)] := h3
  have hmem : (x, y) ∈ (b.process_guess x y).2.guesses := by
    rw [hguesses]
    exact List.mem_append_right _ (List.mem_singleton.mpr rfl)
  refine ⟨?_, process_guess_of_mem _ x y hmem, by rw [hguesses]; simp⟩
  by_cases hs : (x, y) ∈ b.ships
  · exact Or.inl (h1 hs).1
  · exact Or.inr (h2 hs).1

theorem resolve_guess_fst (b : Board) (x y : Int) (s : Nat) :
    (resolve_guess b x y s).1 = (b.process_guess x y).1 := by
  unfold resolve_guess
  dsimp only
  split <;> rfl

theorem resolve_guess_score (b : Board) (x y : Int) (s : Nat) :
    (resolve_guess b x y s).2.2 =
      if (b.process_guess x y).1 = GuessOutcome.Hit then s + 1 else s := by
  unfold resolve_guess
  dsimp only
  by_cases h : (b.process_guess x y).1 = GuessOutcome.Hit
  · rw [if_pos h, if_pos h]
  · rw [if_neg h, if_neg h]

theorem resolve_guess_ships (b : Board) (x y : Int) (s : Nat) :
    (resolve_guess b x y s).2.1.ships =
      if (b.process_guess x y).1 = GuessOutcome.Hit
      then b.ships.erase (x, y) else b.ships := by
  unfold resolve_guess
  dsimp only
  by_cases h : (b.process_guess x y).1 = GuessOutcome.Hit
  · rw [if_pos h, if_pos h]
    simp [process_guess_ships_eq]
  · rw [if_neg h, if_neg h]
    exact process_guess_ships_eq b x y

/-- C4: in a turn of the game loop, the target board's ship count drops by
exactly one on `Hit` (the hit coordinate is removed from the live ship
list) and is unchanged on `Miss` or `Repeat`. -/
theorem resolve_guess_ship_count (b : Board) (x y : Int) (s : Nat) :
    ((resolve_guess b x y s).1 = GuessOutcome.Hit →
      (resolve_guess b x y s).2.1.ships = b.ships.erase (x, y) ∧
      (resolve_guess b x y s).2.1.ships.length + 1 = b.ships.length) ∧
    ((resolve_guess b x y s).1 = GuessOutcome.Miss ∨
        (resolve_guess b x y s).1 = GuessOutcome.Repeat →
      (resolve_guess b x y s).2.1.ships = b.ships) := by
  constructor
  · intro h
    rw [resolve_guess_fst] at h
    have hmem : (x, y) ∈ b.ships := process_guess_hit_mem b x y h
    have herase : (resolve_guess b x y s).2.1.ships = b.ships.erase (x, y) := by
      rw [resolve_guess_ships, if_pos h]
    refine ⟨herase, ?_⟩
    rw [herase, List.length_erase_of_mem hmem]
    have : 0 < b.ships.length := List.length_pos.mpr (List.ne_nil_of_mem hmem)
    omega
  · intro h
    rw [resolve_guess_fst] at h
    have hne : (b.process_guess x y).1 ≠ GuessOutcome.Hit := by
      rcases h with h | h <;> rw [h] <;> exact fun hc => GuessOutcome.noConfusion hc
    rw [resolve_guess_ships, if_neg hne]

/-- C3: `add_ship` fails with `CapacityExceeded` when the ship list already
has `num_ships` entries (checked first) and with `DuplicateShip` when the
coordinate is already a ship, leaving the whole board unchanged on either
failure; every success appends exactly one ship, so after `num_ships`
successful placements any further call hits the capacity failure. -/
theorem add_ship_spec (b : Board) (x y : Int) :
    (b.num_ships ≤ b.ships.length →
      b.add_ship x y = (AddOutcome.CapacityExceeded, b)) ∧
    (b.ships.length < b.num_ships → (x, y) ∈ b.ships →
      b.add_ship x y = (AddOutcome.DuplicateShip, b)) ∧
    ((b.add_ship x y).1 = AddOutcome.Ok →
      (b.add_ship x y).2.ships = b.ships ++ [(x, y)]) := by
  refine ⟨fun h => ?_, fun h1 h2 => ?_, fun h => ?_⟩
  · unfold Board.add_ship
    rw [if_pos h]
  · unfold Board.add_ship
    rw [if_neg (by omega), if_pos h2]
  · unfold Board.add_ship at h ⊢
    by_cases hc : b.num_ships ≤ b.ships.length
    · rw [if_pos hc] at h
      exact absurd h (fun hx => AddOutcome.noConfusion hx)
    · rw [if_neg hc] at h ⊢
      by_cases hd : (x, y) ∈ b.ships
      · rw [if_pos hd] at h
        exact absurd h (fun hx => AddOutcome.noConfusion hx)
      · rw [if_neg hd] at h ⊢
        by_cases hty : b.type = "player"
        · rw [if_pos hty]
          cases hm : setCellPy b.board x y '@'
          · rfl
          · rfl
        · rw [if_neg hty]

/-- A computer board as the program builds it: 5 × 5, capacity 1, one ship
placed at (0, 0). -/
def tieComputerBoard : Board :=
  ((Board.init 5 1 "Computer" "computer").add_ship 0 0).2

/-- A player board as the program builds it: 5 × 5, capacity 1, one ship
placed at (1, 1). -/
def tiePlayerBoard : Board :=
  ((Board.init 5 1 "Alice" "player").add_ship 1 1).2

/-- Game state right after placement, before any round. -/
def tieGameState : GameState :=
  { computer_board := tieComputerBoard
    player_board := tiePlayerBoard
    scores_player := 0
    scores_computer := 0 }

/-- C5 counterexample: a concrete round in which the player sinks the
computer's last ship and the computer — which still takes its turn in the
same round, there being no intermediate termination check — sinks the
player's last ship, so both boards' ship sets are simultaneously empty
when the end-of-round check runs. -/
theorem play_round_simultaneous_exhaustion :
    (play_round tieGameState 0 0 1 1).1.computer_board.ships = [] ∧
    (play_round tieGameState 0 0 1 1).1.player_board.ships = [] := by decide

/-- C5 amended: the end-of-round check tests the computer's board first,
so a single winner is always attributed (the player when both boards are
empty), never a tie, and the game continues past the check only while
both boards still have ships. -/
theorem end_check_spec (cb pb : Board) :
    (end_check cb pb = RoundEnd.Continue ↔ cb.ships ≠ [] ∧ pb.ships ≠ []) ∧
    (cb.ships = [] → end_check cb pb = RoundEnd.PlayerWins) ∧
    (cb.ships ≠ [] → pb.ships = [] → end_check cb pb = RoundEnd.ComputerWins) := by
  unfold end_check
  split_ifs with h1 h2 <;> simp_all

theorem getCell_displayGrid (b : Board) (hide : Bool) (i j : Nat) :
    getCell (b.displayGrid hide) i j =
      if hide && getCell b.board i j = '@' then '.'
      else getCell b.board i j := by
  unfold Board.displayGrid getCell
  by_cases hi : i < b.board.length
  · rw [List.getD_eq_getElem (b.board.map _) [] (by simpa using hi)]
    rw [List.getElem_map]
    rw [List.getD_eq_getElem b.board [] hi]
    by_cases hj : j < (b.board[i]).length
    · rw [List.getD_eq_getElem (List.map _ _) ' ' (by simpa using hj)]
      rw [List.getElem_map]
      rw [List.getD_eq_getElem (b.board[i]) ' ' hj]
    · rw [List.getD_eq_default (List.map _ _) ' ' (by simpa using hj)]
      rw [List.getD_eq_default (b.board[i]) ' ' (by omega)]
      simp
  · rw [List.getD_eq_default (b.board.map _) [] (by simpa using hi)]
    rw [List.getD_eq_default b.board [] (by omega)]
    simp

/-- C6: the grid rendered with `hide_ships = true` never shows a `'@'`
cell; `'X'` and `'O'` cells are shown as-is under either flag; and with
`hide_ships = false` the grid is shown exactly as stored, ship markers
included. -/
theorem displayGrid_spec (b : Board) :
    (∀ row ∈ b.displayGrid true, ∀ c ∈ row, c ≠ '@') ∧
    (∀ (hide : Bool) (i j : Nat),
      getCell b.board i j = 'X' ∨ getCell b.board i j = 'O' →
      getCell (b.displayGrid hide) i j = getCell b.board i j) ∧
    b.displayGrid false = b.board := by
  refine ⟨?_, ?_, ?_⟩
  · intro row hrow c hc
    unfold Board.displayGrid at hrow
    rcases List.mem_map.mp hrow with ⟨r, hr, rfl⟩
    rcases List.mem_map.mp hc with ⟨c0, hc0, rfl⟩
    by_cases h : c0 = '@'
    · simp [h]
    · simp [h]
  · intro hide i j hxo
    rw [getCell_displayGrid]
    have hne : ¬(getCell b.board i j = '@') := by
      rcases hxo with h | h <;> rw [h] <;> decide
    simp [hne]
  · unfold Board.displayGrid
    simp

/-- C7: whenever the computer guess source returns a pair (each raw draw
being in range, the contract of `randint(0, board_size - 1)`), that pair
is in-bounds and not already in the target board's guess history, so
`process_guess` on it never returns `Repeat`. -/
theorem get_computer_guess_spec (b : Board) (draws : List (Int × Int))
    (x y : Int)
    (hdraws : ∀ d ∈ draws, 0 ≤ d.1 ∧ d.1 < (b.board_size : Int) ∧
      0 ≤ d.2 ∧ d.2 < (b.board_size : Int))
    (hret : get_computer_guess b draws = some (x, y)) :
    in_bounds b x y ∧ (x, y) ∉ b.guesses ∧
    (b.process_guess x y).1 ≠ GuessOutcome.Repeat := by
  induction draws with
  | nil => exact Option.noConfusion hret
  | cons d rest ih =>
    unfold get_computer_guess at hret
    by_cases hd : d ∈ b.guesses
    · rw [if_pos hd] at hret
      exact ih (fun e he => hdraws e (List.mem_cons_of_mem d he)) hret
    · rw [if_neg hd] at hret
      have hdxy : d = (x, y) := Option.some.inj hret
      obtain ⟨h1, h2, h3, h4⟩ := hdraws d (List.mem_cons_self d rest)
      rw [hdxy] at hd h1 h2 h3 h4
      exact ⟨⟨h1, h2, h3, h4⟩, hd, process_guess_not_repeat b x y hd⟩

/-- C8: in each round the player's counter grows by exactly one precisely
when the player's guess hits the computer's board, the computer's counter
grows by exactly one precisely when the computer's guess hits the
player's board, and `new_game` resets both counters to zero. -/
theorem play_round_scores (gs : GameState) (px py cx cy : Int)
    (t : Nat × Nat) :
    ((play_round gs px py cx cy).1.scores_player =
      if (play_round gs px py cx cy).2.1 = GuessOutcome.Hit
      then gs.scores_player + 1 else gs.scores_player) ∧
    ((play_round gs px py cx cy).1.scores_computer =
      if (play_round gs px py cx cy).2.2 = GuessOutcome.Hit
      then gs.scores_computer + 1 else gs.scores_computer) ∧
    reset_scores t = (0, 0) := by
  unfold play_round
  dsimp only
  refine ⟨?_, ?_, rfl⟩
  · rw [resolve_guess_score, resolve_guess_fst]
  · rw [resolve_guess_score, resolve_guess_fst]

/-- C9: the freshly constructed board satisfies the ship-list invariant
(all coordinates in bounds, pairwise distinct, at most `num_ships` many);
`process_guess` never touches the ship list; and a placement guarded by
`valid_coordinates` — as both placement paths of the program are —
preserves the invariant on a well-formed board, whatever the outcome. -/
theorem ships_invariant_spec (b : Board) (x y : Int) (n k : Nat)
    (nm ty : String) :
    ships_invariant (Board.init n k nm ty) ∧
    (b.process_guess x y).2.ships = b.ships ∧
    (b.wf → ships_invariant b → valid_coordinates x y b = true →
      ships_invariant (b.add_ship x y).2) := by
  refine ⟨⟨?_, List.nodup_nil, Nat.zero_le k⟩,
    process_guess_ships_eq b x y, fun hwf hinv hv => ?_⟩
  · intro p hp
    exact absurd hp (List.not_mem_nil p)
  · obtain ⟨hbnd, hnd, hle⟩ := hinv
    unfold valid_coordinates at hv
    simp only [Bool.and_eq_true, decide_eq_true_eq, Bool.not_eq_true',
      decide_eq_false_iff_not] at hv
    obtain ⟨⟨⟨⟨hx0, hx1⟩, hy0⟩, hy1⟩, hns⟩ := hv
    by_cases hc : b.num_ships ≤ b.ships.length
    · unfold Board.add_ship
      rw [if_pos hc]
      exact ⟨hbnd, hnd, hle⟩
    · have hnew : ∀ g : List (List Char),
          ships_invariant
            { b with ships := b.ships ++ [(x, y)], board := g } := by
        intro g
        refine ⟨?_, ?_, ?_⟩
        · intro p hp
          rcases List.mem_append.mp hp with hm | hm
          · exact hbnd p hm
          · have hpxy : p = (x, y) := List.mem_singleton.mp hm
            rw [hpxy]
            exact ⟨hx0, hx1, hy0, hy1⟩
        · rw [List.nodup_append]
          refine ⟨hnd, List.nodup_singleton _, ?_⟩
          intro a ha hb
          rw [List.mem_singleton.mp hb] at ha
          exact hns ha
        · show (b.ships ++ [(x, y)]).length ≤ b.num_ships
          have hlen1 : (b.ships ++ [(x, y)]).length = b.ships.length + 1 := by
            simp
          omega
      unfold Board.add_ship
      rw [if_neg hc, if_neg hns]
      by_cases hty : b.type = "player"
      · rw [if_pos hty]
        cases hm : setCellPy b.board x y '@'
        · exact hnew b.board
        · exact hnew _
      · rw [if_neg hty]
        exact hnew b.board

/-- C10: `process_guess` does no bounds checking of its own: a fresh
non-ship coordinate with row or column ≥ `board_size` is appended to the
guess history and only then does the cell update raise `IndexError` (the
history is mutated although the call does not complete), while a fresh
coordinate whose components lie in `-board_size .. board_size - 1` with a
negative component is accepted as a miss and silently marks `'O'` at the
wrapped, end-relative cell. -/
theorem process_guess_no_bounds_check (b : Board) (x y : Int)
    (hwf : b.wf) (hg : (x, y) ∉ b.guesses) (hs : (x, y) ∉ b.ships) :
    ((b.board_size : Int) ≤ x ∨ (b.board_size : Int) ≤ y →
      b.process_guess x y =
        (GuessOutcome.IndexError,
          { b with guesses := b.guesses ++ [(x, y)] })) ∧
    (-(b.board_size : Int) ≤ x → x < (b.board_size : Int) →
      -(b.board_size : Int) ≤ y → y < (b.board_size : Int) →
      (x < 0 ∨ y < 0) →
      (b.process_guess x y).1 = GuessOutcome.Miss ∧
      getCell (b.process_guess x y).2.board
        (pyWrap b.board_size x) (pyWrap b.board_size y) = 'O' ∧
      (b.process_guess x y).2.guesses = b.guesses ++ [(x, y)]) := by
  obtain ⟨hlen, hrows⟩ := hwf
  constructor
  · intro hoob
    unfold Board.process_guess
    rw [if_neg hg, if_neg hs,
      setCellPy_none b.board b.board_size x y 'O' hlen hrows hoob]
  · intro hx0 hx1 hy0 hy1 _
    have hset := setCellPy_eq_some b.board b.board_size x y 'O' hlen hrows
      hx0 hx1 hy0 hy1
    have hxl : pyWrap b.board_size x < b.board.length := by
      rw [hlen]
      exact pyWrap_lt _ x hx0 hx1
    have hrow : (b.board.getD (pyWrap b.board_size x) []).length
        = b.board_size := by
      have hmem : b.board.getD (pyWrap b.board_size x) [] ∈ b.board := by
        rw [List.getD_eq_getElem b.board [] hxl]
        exact List.getElem_mem hxl
      exact hrows _ hmem
    have hyl : pyWrap b.board_size y
        < (b.board.getD (pyWrap b.board_size x) []).length := by
      rw [hrow]
      exact pyWrap_lt _ y hy0 hy1
    unfold Board.process_guess
    rw [if_neg hg, if_neg hs, hset]
    exact ⟨rfl, getCell_set_self _ _ _ _ hxl hyl, rfl⟩

/-- A concrete 3 × 3 player board with capacity 2 and one ship at (1, 1),
used to instantiate the general theorems. -/
def demoBoard : Board :=
  { board_size := 3
    board := [['.', '.', '.'], ['.', '.', '.'], ['.', '.', '.']]
    num_ships := 2
    name := "Alice"
    type := "player"
    guesses := []
    ships := [(1, 1)] }

/-- `demoBoard` after one guess at (0, 0). -/
def demoBoardG : Board :=
  { demoBoard with guesses := [(0, 0)] }

/-- Capacity-reached variant of `demoBoard` (capacity 1, one ship). -/
def demoFullBoard : Board :=
  { demoBoard with num_ships := 1 }

/-- C1 witness: on `demoBoard`, guessing the ship cell (1, 1) is a hit
that marks `'X'` and records the guess. -/
theorem process_guess_fresh_witness :
    (demoBoard.process_guess 1 1).1 = GuessOutcome.Hit ∧
    getCell (demoBoard.process_guess 1 1).2.board 1 1 = 'X' ∧
    (demoBoard.process_guess 1 1).2.guesses = [(1, 1)] := by
  have h := process_guess_fresh demoBoard 1 1 (by decide) (by decide)
    (by decide)
  have h1 := h.1 (by decide)
  exact ⟨h1.1, h1.2, h.2.2⟩

/-- C2 witness: the repeated guess (0, 0) on `demoBoardG` changes nothing,
and the fresh guess (2, 2) yields `Miss` then `Repeat` with exactly one
new history entry. -/
theorem process_guess_repeat_witness :
    demoBoardG.process_guess 0 0 = (GuessOutcome.Repeat, demoBoardG) ∧
    ((demoBoardG.process_guess 2 2).1 = GuessOutcome.Hit ∨
      (demoBoardG.process_guess 2 2).1 = GuessOutcome.Miss) ∧
    (demoBoardG.process_guess 2 2).2.process_guess 2 2 =
      (GuessOutcome.Repeat, (demoBoardG.process_guess 2 2).2) ∧
    (demoBoardG.process_guess 2 2).2.guesses.length =
      demoBoardG.guesses.length + 1 := by
  have h := process_guess_repeat_spec demoBoardG 0 0
  have h2 := process_guess_repeat_spec demoBoardG 2 2
  exact ⟨h.1 (by decide), h2.2 (by decide) (by decide) (by decide)⟩

/-- C3 witness: capacity failure on the full board, duplicate failure at
the occupied cell, and a successful placement appending one ship. -/
theorem add_ship_witness :
    demoFullBoard.add_ship 0 0 =
      (AddOutcome.CapacityExceeded, demoFullBoard) ∧
    demoBoard.add_ship 1 1 = (AddOutcome.DuplicateShip, demoBoard) ∧
    (demoBoard.add_ship 0 0).2.ships = [(1, 1), (0, 0)] := by
  have h1 := add_ship_spec demoFullBoard 0 0
  have h2 := add_ship_spec demoBoard 1 1
  have h3 := add_ship_spec demoBoard 0 0
  exact ⟨h1.1 (by decide), h2.2.1 (by decide) (by decide),
    by rw [h3.2.2 (by decide)]; rfl⟩

/-- C4 witness: a hit at (1, 1) removes `demoBoard`'s only ship; a miss at
(0, 0) leaves the ship list unchanged. -/
theorem resolve_guess_ship_count_witness :
    (resolve_guess demoBoard 1 1 0).2.1.ships.length + 1 =
      demoBoard.ships.length ∧
    (resolve_guess demoBoard 0 0 0).2.1.ships = demoBoard.ships := by
  have h1 := resolve_guess_ship_count demoBoard 1 1 0
  have h2 := resolve_guess_ship_count demoBoard 0 0 0
  exact ⟨(h1.1 (by decide)).2, h2.2 (Or.inl (by decide))⟩

/-- C5 witness: even in the simultaneous-exhaustion state reached by the
counterexample round the check names the player as the only winner, and
with ships left on both boards the game continues. -/
theorem end_check_witness :
    end_check (play_round tieGameState 0 0 1 1).1.computer_board
        (play_round tieGameState 0 0 1 1).1.player_board =
      RoundEnd.PlayerWins ∧
    end_check tieComputerBoard tiePlayerBoard = RoundEnd.Continue := by
  have h1 := end_check_spec (play_round tieGameState 0 0 1 1).1.computer_board
    (play_round tieGameState 0 0 1 1).1.player_board
  have h2 := end_check_spec tieComputerBoard tiePlayerBoard
  exact ⟨h1.2.1 (by decide), h2.1.mpr ⟨by decide, by decide⟩⟩

/-- A board whose grid holds each display symbol. -/
def demoShownBoard : Board :=
  { board_size := 2
    board := [['@', 'X'], ['O', '.']]
    num_ships := 1
    name := "Alice"
    type := "player"
    guesses := [(0, 1), (1, 0)]
    ships := [(0, 0)] }

/-- C6 witness: the hidden rendering keeps the `'X'` cell as-is and the
unhidden rendering is exactly the stored grid, ship marker included. -/
theorem displayGrid_witness :
    getCell (demoShownBoard.displayGrid true) 0 1 =
      getCell demoShownBoard.board 0 1 ∧
    demoShownBoard.displayGrid false = demoShownBoard.board := by
  have h := displayGrid_spec demoShownBoard
  exact ⟨h.2.1 true 0 1 (Or.inl (by decide)), h.2.2⟩

/-- C7 witness: with draws (0, 0) — already guessed — and then (1, 2), the
computer guess source returns (1, 2): fresh, in bounds, never `Repeat`. -/
theorem get_computer_guess_witness :
    in_bounds demoBoardG 1 2 ∧
    ((1 : Int), (2 : Int)) ∉ demoBoardG.guesses ∧
    (demoBoardG.process_guess 1 2).1 ≠ GuessOutcome.Repeat :=
  get_computer_guess_spec demoBoardG [(0, 0), (1, 2)] 1 2
    (by decide) (by decide)

/-- C9 witness: the invariant holds for a fresh 3 × 3 board and is kept by
a `valid_coordinates`-guarded placement on `demoBoard`. -/
theorem ships_invariant_witness :
    ships_invariant (Board.init 3 2 "Alice" "player") ∧
    ships_invariant (demoBoard.add_ship 0 0).2 := by
  have h := ships_invariant_spec demoBoard 0 0 3 2 "Alice" "player"
  exact ⟨h.1, h.2.2 (by decide) (by decide) (by decide)⟩

/-- C10 witness: the out-of-range guess (3, 0) on the 3 × 3 `demoBoard`
mutates the history and then raises, and the negative guess (-1, -1) is
accepted as a miss marking the wrapped cell (2, 2). -/
theorem process_guess_no_bounds_check_witness :
    demoBoard.process_guess 3 0 =
      (GuessOutcome.IndexError, { demoBoard with guesses := [(3, 0)] }) ∧
    (demoBoard.process_guess (-1) (-1)).1 = GuessOutcome.Miss ∧
    getCell (demoBoard.process_guess (-1) (-1)).2.board 2 2 = 'O' := by
  have h1 := process_guess_no_bounds_check demoBoard 3 0 (by decide)
    (by decide) (by decide)
  have h2 := process_guess_no_bounds_check demoBoard (-1) (-1) (by decide)
    (by decide) (by decide)
  have h2m := h2.2 (by decide) (by decide) (by decide) (by decide)
    (Or.inl (by decide))
  have hw : pyWrap demoBoard.board_size (-1) = 2 := by decide
  have hcell := h2m.2.1
  rw [hw] at hcell
  exact ⟨h1.1 (Or.inl (by decide)), h2m.1, hcell⟩
